import Mathlib

/-!
Shallow embedding of the two UI components of the Cognito-integrated
Bedrock agents chat client:

* `src/ConfigComponent.jsx` — the configuration form: validation
  (`validateForm`), persistence and Amplify application (`handleSubmit`,
  the load-on-mount effect), per-field editing with error clearing, the
  derived-region rule (`extractRegionFromLambdaArn` and its effect), and
  the cancel button.
* `src/PreviewIframe.jsx` — the sandboxed HTML preview frame.

JavaScript objects holding the per-field error messages are modelled as
association lists in assignment order (for the freshly built `newErrors`
object) and as functions `ErrorKey → Option String` (for the `errors`
React state, which is updated by object spreads).  Browser state outside
the component (localStorage, the Amplify configuration, the owner's edit
flag and saved callback) is modelled by the `World` record, with each
handler a pure transition on `World × ComponentState`.
-/

namespace ChatUi

/-- The character class `[a-z0-9-]` of the Lambda-ARN regex in
`extractRegionFromLambdaArn` (ASCII lowercase letter, digit, or hyphen). -/
def isRegionChar (c : Char) : Bool :=
  c.isLower || c.isDigit || c == '-'

/-- Characters matched by `.` in a JavaScript regex without the `s` flag:
everything except the four line terminators LF, CR, U+2028, U+2029. -/
def isDotChar (c : Char) : Bool :=
  !(c == '\n' || c == '\r' || c.toNat == 8232 || c.toNat == 8233)

/-- Split a character list at its first colon: `some (before, after)`,
or `none` when the list has no colon. -/
def splitAtColon : List Char → Option (List Char × List Char)
  | [] => none
  | c :: cs =>
    if c = ':' then some ([], cs)
    else
      match splitAtColon cs with
      | none => none
      | some (a, b) => some (c :: a, b)

/-- The colon-separated segments of a character list (the JavaScript
`split(':')` decomposition, used only to state properties of the
extracted region). -/
def colonSegs : List Char → List (List Char)
  | [] => [[]]
  | c :: cs =>
    if c = ':' then [] :: colonSegs cs
    else
      match colonSegs cs with
      | [] => [[c]]
      | s :: ss => (c :: s) :: ss

/-- The 15-character literal anchor `arn:aws:lambda:` of the regex. -/
def arnPre : List Char :=
  ['a', 'r', 'n', ':', 'a', 'w', 's', ':', 'l', 'a', 'm', 'b', 'd', 'a', ':']

/-- The literal `function:` that follows the account segment in the regex. -/
def functionLit : List Char := ['f', 'u', 'n', 'c', 't', 'i', 'o', 'n', ':']

/-- Core of `extractRegionFromLambdaArn` on character lists: decide the
regex `arn:aws:lambda:([a-z0-9-]+):\d+:function:.+` anchored at both ends
and return the capture group, or `[]` when the regex does not match.
Because the region and account character classes exclude the colon, the
regex matches exactly when the text after the anchor splits at its first
two colons into a non-empty `[a-z0-9-]` run, a non-empty digit run, and a
remainder that starts with the literal `function:` followed by a
non-empty name containing no line terminator. -/
def extractRegionCore (cs : List Char) : List Char :=
  if cs.take 15 = arnPre then
    match splitAtColon (cs.drop 15) with
    | none => []
    | some (r, rest2) =>
      if r ≠ [] ∧ r.all isRegionChar = true then
        match splitAtColon rest2 with
        | none => []
        | some (d, rest3) =>
          if d ≠ [] ∧ d.all Char.isDigit = true then
            if rest3.take 9 = functionLit then
              if rest3.drop 9 ≠ [] ∧ (rest3.drop 9).all isDotChar = true then r
              else []
            else []
          else []
      else []
  else []

/-- `extractRegionFromLambdaArn` from `ConfigComponent.jsx`: the extracted
region of a valid Lambda ARN, or the empty string. -/
def extractRegionFromLambdaArn (arn : String) : String :=
  ⟨extractRegionCore arn.data⟩

/-- The Cognito sub-record of the configuration state. -/
structure CognitoConfig where
  userPoolId : String
  userPoolClientId : String
  region : String
  identityPoolId : String
deriving DecidableEq

/-- The Bedrock-agent sub-record of the configuration state. -/
structure BedrockConfig where
  agentName : String
  agentId : String
  agentAliasId : String
  region : String
deriving DecidableEq

/-- The Strands-agent sub-record of the configuration state. -/
structure StrandsConfig where
  enabled : Bool
  lambdaArn : String
  agentName : String
  region : String
deriving DecidableEq

/-- The full configuration record held in the `config` React state. -/
structure Config where
  cognito : CognitoConfig
  bedrock : BedrockConfig
  strands : StrandsConfig
deriving DecidableEq

/-- The default Strands sub-record, used both by the `useState`
initializer and by the legacy back-fill in the load effect. -/
def defaultStrands : StrandsConfig :=
  { enabled := false, lambdaArn := "", agentName := "Strandsエージェント", region := "" }

/-- The initial in-memory configuration (the `useState` initializer). -/
def initialConfig : Config :=
  { cognito := { userPoolId := "", userPoolClientId := "", region := "", identityPoolId := "" }
    bedrock := { agentName := "", agentId := "", agentAliasId := "", region := "" }
    strands := defaultStrands }

/-- The keys that can appear in the `errors` object. -/
inductive ErrorKey where
  | userPoolId | userPoolClientId | identityPoolId | cognitoRegion
  | agentName | agentId | agentAliasId | bedrockRegion
  | strandsAgentName | lambdaArn | strandsRegion
deriving DecidableEq

/-- The whitespace set stripped by JavaScript `String.prototype.trim`
(WhiteSpace plus LineTerminator code points). -/
def isJsWhitespace (c : Char) : Bool :=
  c.toNat == 0x09 || c.toNat == 0x0A || c.toNat == 0x0B || c.toNat == 0x0C ||
  c.toNat == 0x0D || c.toNat == 0x20 || c.toNat == 0xA0 || c.toNat == 0x1680 ||
  (decide (0x2000 ≤ c.toNat) && decide (c.toNat ≤ 0x200A)) ||
  c.toNat == 0x2028 || c.toNat == 0x2029 ||
  c.toNat == 0x202F || c.toNat == 0x205F || c.toNat == 0x3000 || c.toNat == 0xFEFF

/-- `!s.trim()` in the source: the string is empty or whitespace-only. -/
def isBlank (s : String) : Bool := s.data.all isJsWhitespace

/-- One conditional `newErrors.key = message` assignment in `validateForm`. -/
def condEntry (b : Prop) [Decidable b] (k : ErrorKey) (m : String) :
    List (ErrorKey × String) :=
  if b then [(k, m)] else []

/-- The fresh `newErrors` object built by `validateForm`, as an
association list in assignment order. -/
def newErrorsList (c : Config) : List (ErrorKey × String) :=
  condEntry (isBlank c.cognito.userPoolId = true) ErrorKey.userPoolId "ユーザープールIDは必須です" ++
  (condEntry (isBlank c.cognito.userPoolClientId = true) ErrorKey.userPoolClientId "ユーザープールクライアントIDは必須です" ++
  (condEntry (isBlank c.cognito.identityPoolId = true) ErrorKey.identityPoolId "アイデンティティプールIDは必須です" ++
  (condEntry (isBlank c.cognito.region = true) ErrorKey.cognitoRegion "Cognitoリージョンは必須です" ++
  ((if c.strands.enabled = false then
      condEntry (isBlank c.bedrock.agentId = true) ErrorKey.agentId "エージェントIDは必須です" ++
      (condEntry (isBlank c.bedrock.agentAliasId = true) ErrorKey.agentAliasId "エージェントエイリアスIDは必須です" ++
      condEntry (isBlank c.bedrock.region = true) ErrorKey.bedrockRegion "Bedrockリージョンは必須です")
    else []) ++
  (if c.strands.enabled = true then
      condEntry (isBlank c.strands.lambdaArn = true) ErrorKey.lambdaArn "Lambda ARNは必須です" ++
      condEntry (isBlank c.strands.region = true) ErrorKey.strandsRegion "リージョンは必須です"
    else [])))))

/-- Lookup of a key in an error object represented as an association
list (each key is assigned at most once in `validateForm`). -/
def findMsg (k : ErrorKey) : List (ErrorKey × String) → Option String
  | [] => none
  | (k2, m) :: rest => if k2 = k then some m else findMsg k rest

/-- First-defined-wins choice, mirroring object key precedence. -/
def optOr (a b : Option String) : Option String :=
  match a with
  | some m => some m
  | none => b

/-- The error mapping computed by a save attempt (`validateForm` writes it
into the `errors` state with `setErrors(newErrors)`). -/
def validationErrors (c : Config) : ErrorKey → Option String :=
  fun k => findMsg k (newErrorsList c)

/-- The boolean result of `validateForm`:
`Object.keys(newErrors).length === 0`. -/
def validateForm (c : Config) : Bool := (newErrorsList c).isEmpty

/-- The argument record of `Amplify.configure` (the `Auth.Cognito` block
built by `configureAmplify`). -/
structure AmplifyAuthConfig where
  region : String
  userPoolId : String
  userPoolClientId : String
  identityPoolId : String
deriving DecidableEq

/-- `configureAmplify`: the Cognito fields passed to `Amplify.configure`. -/
def configureAmplify (c : Config) : AmplifyAuthConfig :=
  { region := c.cognito.region
    userPoolId := c.cognito.userPoolId
    userPoolClientId := c.cognito.userPoolClientId
    identityPoolId := c.cognito.identityPoolId }

/-- Shape of the JSON record stored under the `appConfig` localStorage
key: legacy records may lack the `strands` sub-record. -/
structure StoredConfig where
  cognito : CognitoConfig
  bedrock : BedrockConfig
  strands : Option StrandsConfig
deriving DecidableEq

/-- `JSON.stringify(config)`: the in-memory record always serializes all
three sub-records (string and boolean fields round-trip through JSON). -/
def storedOf (c : Config) : StoredConfig :=
  { cognito := c.cognito, bedrock := c.bedrock, strands := some c.strands }

/-- `JSON.parse` of a stored record followed by the legacy back-fill: a
missing `strands` sub-record is replaced with the defaults. -/
def backfill (sc : StoredConfig) : Config :=
  { cognito := sc.cognito, bedrock := sc.bedrock, strands := sc.strands.getD defaultStrands }

/-- Browser-side state outside the component: the `appConfig` localStorage
entry, the active Amplify configuration, the owner's edit flag
(`isEditingConfig` / `setEditingConfig`), and the number of times the
owner's `onConfigSet` callback has been invoked. -/
structure World where
  storage : Option StoredConfig
  amplify : Option AmplifyAuthConfig
  editing : Bool
  savedCount : Nat
deriving DecidableEq

/-- The component's own React state: the configuration record and the
per-field error messages (a key absent from the object is `none`). -/
structure ComponentState where
  config : Config
  errors : ErrorKey → Option String

/-- The `useState({})` initializer of the `errors` state. -/
def initialErrors : ErrorKey → Option String := fun _ => none

/-- The mount effect: read `appConfig`; when present, parse and back-fill
it, then either apply it to Amplify (not editing) or populate the form
(editing).  No owner callback is invoked on this path. -/
def loadOnMount (w : World) (s : ComponentState) : World × ComponentState :=
  match w.storage with
  | none => (w, s)
  | some sc =>
    let parsedConfig := backfill sc
    if w.editing = false then
      ({ w with amplify := some (configureAmplify parsedConfig) }, s)
    else
      (w, { s with config := parsedConfig })

/-- The editable (section, field) inputs of the form. -/
inductive EditableField where
  | cognitoUserPoolId | cognitoUserPoolClientId | cognitoIdentityPoolId | cognitoRegion
  | bedrockAgentName | bedrockAgentId | bedrockAgentAliasId | bedrockRegion
  | strandsAgentName | strandsLambdaArn | strandsRegion
deriving DecidableEq

/-- `handleInputChange(section, field, value)`: replace one field of the
in-memory configuration. -/
def handleInputChange : EditableField → String → Config → Config
  | .cognitoUserPoolId, v, c => { c with cognito := { c.cognito with userPoolId := v } }
  | .cognitoUserPoolClientId, v, c => { c with cognito := { c.cognito with userPoolClientId := v } }
  | .cognitoIdentityPoolId, v, c => { c with cognito := { c.cognito with identityPoolId := v } }
  | .cognitoRegion, v, c => { c with cognito := { c.cognito with region := v } }
  | .bedrockAgentName, v, c => { c with bedrock := { c.bedrock with agentName := v } }
  | .bedrockAgentId, v, c => { c with bedrock := { c.bedrock with agentId := v } }
  | .bedrockAgentAliasId, v, c => { c with bedrock := { c.bedrock with agentAliasId := v } }
  | .bedrockRegion, v, c => { c with bedrock := { c.bedrock with region := v } }
  | .strandsAgentName, v, c => { c with strands := { c.strands with agentName := v } }
  | .strandsLambdaArn, v, c => { c with strands := { c.strands with lambdaArn := v } }
  | .strandsRegion, v, c => { c with strands := { c.strands with region := v } }

/-- The error key cleared by each input's onChange handler. -/
def errorKeyOf : EditableField → ErrorKey
  | .cognitoUserPoolId => .userPoolId
  | .cognitoUserPoolClientId => .userPoolClientId
  | .cognitoIdentityPoolId => .identityPoolId
  | .cognitoRegion => .cognitoRegion
  | .bedrockAgentName => .agentName
  | .bedrockAgentId => .agentId
  | .bedrockAgentAliasId => .agentAliasId
  | .bedrockRegion => .bedrockRegion
  | .strandsAgentName => .strandsAgentName
  | .strandsLambdaArn => .lambdaArn
  | .strandsRegion => .strandsRegion

/-- An input's onChange handler: `handleInputChange(...)` followed by
`setErrors({...errors, key: ''})`, which overwrites that single key with
the empty message and keeps every other entry. -/
def editField (f : EditableField) (v : String) (s : ComponentState) : ComponentState :=
  { config := handleInputChange f v s.config
    errors := fun k => if k = errorKeyOf f then some "" else s.errors k }

/-- The derived-region `useEffect`: when the Strands agent is enabled and
a Lambda ARN string is present, recompute the region from the ARN and
overwrite `strands.region` when extraction succeeds. -/
def updateStrandsRegionEffect (c : Config) : Config :=
  if c.strands.enabled = true ∧ c.strands.lambdaArn ≠ "" then
    if extractRegionFromLambdaArn c.strands.lambdaArn ≠ "" then
      handleInputChange EditableField.strandsRegion
        (extractRegionFromLambdaArn c.strands.lambdaArn) c
    else c
  else c

/-- The `disabled` attribute of the Strands region input:
`!!extractRegionFromLambdaArn(config.strands.lambdaArn)`. -/
def strandsRegionDisabled (c : Config) : Bool :=
  decide (extractRegionFromLambdaArn c.strands.lambdaArn ≠ "")

/-- `handleSubmit`: run `validateForm` (which stores the recomputed error
mapping); on success persist the configuration, apply it to Amplify, exit
edit mode, and invoke `onConfigSet` once; on failure change nothing else. -/
def handleSubmit (w : World) (s : ComponentState) : World × ComponentState :=
  let s2 : ComponentState := { s with errors := validationErrors s.config }
  if validateForm s.config = true then
    ({ storage := some (storedOf s.config)
       amplify := some (configureAmplify s.config)
       editing := false
       savedCount := w.savedCount + 1 }, s2)
  else (w, s2)

/-- The cancel button: `setEditingConfig(false)` and nothing else. -/
def handleCancel (w : World) (s : ComponentState) : World × ComponentState :=
  ({ w with editing := false }, s)

/-- In-memory edit events available in the form. -/
inductive EditAction where
  | setField : EditableField → String → EditAction
  | selectAgentType : Bool → EditAction
  | deriveRegion : EditAction

/-- Apply one edit event to the component state: a field edit, the
agent-type `Select` (which flips `strands.enabled` and touches no error),
or a run of the derived-region effect. -/
def applyEdit (s : ComponentState) : EditAction → ComponentState
  | .setField f v => editField f v s
  | .selectAgentType b =>
    { s with config := { s.config with strands := { s.config.strands with enabled := b } } }
  | .deriveRegion => { s with config := updateStrandsRegionEffect s.config }

/-- The preview iframe element: its fixed attributes and the srcdoc
document (the rendered surface content). -/
structure IframeNode where
  srcdoc : Option String
  sandbox : String
  title : String
deriving DecidableEq

/-- The iframe as first rendered, before any effect ran. -/
def initialIframe : IframeNode :=
  { srcdoc := none, sandbox := "allow-scripts", title := "Agent HTML Preview" }

/-- The `useEffect` of `PreviewIframe`: assign the whole html string to
`iframe.srcdoc`, replacing the previous document wholesale. -/
def previewEffect (html : String) (node : IframeNode) : IframeNode :=
  { node with srcdoc := some html }

/-- A fully valid configuration (all required fields non-blank, Bedrock
agent mode). -/
def sampleValidConfig : Config :=
  { cognito := { userPoolId := "us-east-1_uXboG5pAb"
                 userPoolClientId := "25ddkmj4v6hfsfvruhpfi7n4hv"
                 region := "us-east-1"
                 identityPoolId := "us-east-1:a0421ced-2ae0-45ab-a503-21f6f23c5562" }
    bedrock := { agentName := "MyAgent", agentId := "UF1W5WKVYI"
                 agentAliasId := "TSTALIASID", region := "us-east-1" }
    strands := defaultStrands }

/-- A stored record produced by a previous successful submit. -/
def sampleStored : StoredConfig := storedOf sampleValidConfig

/-- A world with a stored configuration, not in edit mode, no callback
invoked yet. -/
def sampleWorld : World :=
  { storage := some sampleStored, amplify := none, editing := false, savedCount := 0 }

/-- Component state fresh from `useState`. -/
def sampleState : ComponentState := { config := initialConfig, errors := initialErrors }

/-- Component state holding a valid configuration. -/
def sampleValidState : ComponentState := { config := sampleValidConfig, errors := initialErrors }

/-- A configuration with the Strands agent enabled and the documented
example Lambda ARN. -/
def sampleArnConfig : Config :=
  { cognito := initialConfig.cognito
    bedrock := initialConfig.bedrock
    strands := { enabled := true
                 lambdaArn := "arn:aws:lambda:us-west-2:123456789012:function:foo"
                 agentName := "Strandsエージェント", region := "" } }

/-! Helper lemmas about the list-level parsing primitives. -/

theorem splitAtColon_eq_some {cs : List Char} :
    ∀ {a b : List Char}, splitAtColon cs = some (a, b) → cs = a ++ (':' :: b) ∧ ':' ∉ a := by
  induction cs with
  | nil => intro a b h; simp [splitAtColon] at h
  | cons c t ih =>
    intro a b h
    by_cases hc : c = ':'
    · subst hc
      simp [splitAtColon] at h
      obtain ⟨ha, hb⟩ := h
      subst ha; subst hb
      exact ⟨rfl, by simp⟩
    · rw [splitAtColon, if_neg hc] at h
      cases h2 : splitAtColon t with
      | none => rw [h2] at h; simp at h
      | some p =>
        obtain ⟨a2, b2⟩ := p
        rw [h2] at h
        simp at h
        obtain ⟨ha, hb⟩ := h
        subst ha; subst hb
        obtain ⟨h3, h4⟩ := ih h2
        constructor
        · rw [List.cons_append, ← h3]
        · intro hm
          rcases List.mem_cons.mp hm with h5 | h5
          · exact hc h5.symm
          · exact h4 h5

theorem splitAtColon_append {b : List Char} :
    ∀ {a : List Char}, ':' ∉ a → splitAtColon (a ++ (':' :: b)) = some (a, b) := by
  intro a
  induction a with
  | nil => intro _; simp [splitAtColon]
  | cons c t ih =>
    intro ha
    have hc : ¬ c = ':' := fun h => ha (by rw [h]; exact List.mem_cons_self _ _)
    have ht : ':' ∉ t := fun hm => ha (List.mem_cons_of_mem _ hm)
    rw [List.cons_append, splitAtColon, if_neg hc, ih ht]

theorem colonSegs_append {b : List Char} :
    ∀ {a : List Char}, ':' ∉ a → colonSegs (a ++ (':' :: b)) = a :: colonSegs b := by
  intro a
  induction a with
  | nil => intro _; simp [colonSegs]
  | cons c t ih =>
    intro ha
    have hc : ¬ c = ':' := fun h => ha (by rw [h]; exact List.mem_cons_self _ _)
    have ht : ':' ∉ t := fun hm => ha (List.mem_cons_of_mem _ hm)
    rw [List.cons_append, colonSegs, if_neg hc, ih ht]

theorem colon_not_mem {l : List Char} {p : Char → Bool}
    (h : l.all p = true) (hp : p ':' = false) : ':' ∉ l := by
  intro hm
  have h2 := List.all_eq_true.mp h _ hm
  rw [hp] at h2
  exact Bool.false_ne_true h2

theorem string_mk_eq_empty (l : List Char) : (⟨l⟩ : String) = "" ↔ l = [] := by
  constructor
  · intro h
    exact congrArg String.data h
  · intro h
    subst h
    rfl

theorem extractRegionCore_spec {cs r : List Char}
    (h : extractRegionCore cs = r) (hne : r ≠ []) :
    ∃ d n, cs = arnPre ++ (r ++ (':' :: (d ++ (':' :: (functionLit ++ n))))) ∧
      r.all isRegionChar = true ∧ ':' ∉ r ∧
      d ≠ [] ∧ d.all Char.isDigit = true ∧ ':' ∉ d ∧
      n ≠ [] ∧ n.all isDotChar = true := by
  unfold extractRegionCore at h
  by_cases h15 : cs.take 15 = arnPre
  case neg => rw [if_neg h15] at h; exact absurd h.symm hne
  rw [if_pos h15] at h
  cases h1 : splitAtColon (cs.drop 15) with
  | none => simp only [h1] at h; exact absurd h.symm hne
  | some p =>
    obtain ⟨a, rest2⟩ := p
    simp only [h1] at h
    by_cases hc1 : a ≠ [] ∧ a.all isRegionChar = true
    case neg => rw [if_neg hc1] at h; exact absurd h.symm hne
    rw [if_pos hc1] at h
    cases h2 : splitAtColon rest2 with
    | none => simp only [h2] at h; exact absurd h.symm hne
    | some q =>
      obtain ⟨d, rest3⟩ := q
      simp only [h2] at h
      by_cases hc2 : d ≠ [] ∧ d.all Char.isDigit = true
      case neg => rw [if_neg hc2] at h; exact absurd h.symm hne
      rw [if_pos hc2] at h
      by_cases h9 : rest3.take 9 = functionLit
      case neg => rw [if_neg h9] at h; exact absurd h.symm hne
      rw [if_pos h9] at h
      by_cases hc3 : rest3.drop 9 ≠ [] ∧ (rest3.drop 9).all isDotChar = true
      case neg => rw [if_neg hc3] at h; exact absurd h.symm hne
      rw [if_pos hc3] at h
      subst h
      obtain ⟨hd1, hcolon1⟩ := splitAtColon_eq_some h1
      obtain ⟨hd2, hcolon2⟩ := splitAtColon_eq_some h2
      refine ⟨d, rest3.drop 9, ?_, hc1.2, hcolon1, hc2.1, hc2.2, hcolon2, hc3.1, hc3.2⟩
      have hr3 : rest3 = functionLit ++ rest3.drop 9 := by
        conv_lhs => rw [← List.take_append_drop 9 rest3]
        rw [h9]
      calc cs = cs.take 15 ++ cs.drop 15 := (List.take_append_drop 15 cs).symm
        _ = arnPre ++ (a ++ (':' :: rest2)) := by rw [h15, hd1]
        _ = arnPre ++ (a ++ (':' :: (d ++ (':' :: (functionLit ++ rest3.drop 9))))) := by
              rw [hd2, ← hr3]

theorem extractRegionCore_fnEmpty {r d : List Char}
    (hrc : r.all isRegionChar = true) (hdc : d.all Char.isDigit = true) :
    extractRegionCore (arnPre ++ (r ++ (':' :: (d ++ (':' :: functionLit))))) = [] := by
  have hcr : ':' ∉ r := colon_not_mem hrc (by decide)
  have hcd : ':' ∉ d := colon_not_mem hdc (by decide)
  have t15 : (arnPre ++ (r ++ (':' :: (d ++ (':' :: functionLit))))).take 15 = arnPre := rfl
  have d15 : (arnPre ++ (r ++ (':' :: (d ++ (':' :: functionLit))))).drop 15 =
      r ++ (':' :: (d ++ (':' :: functionLit))) := rfl
  unfold extractRegionCore
  rw [t15, if_pos rfl, d15]
  simp only [splitAtColon_append hcr]
  by_cases hr0 : r = []
  · rw [if_neg]
    intro hh
    exact hh.1 hr0
  · rw [if_pos ⟨hr0, hrc⟩]
    simp only [splitAtColon_append hcd]
    by_cases hd0 : d = []
    · rw [if_neg]
      intro hh
      exact hh.1 hd0
    · rw [if_pos ⟨hd0, hdc⟩, if_pos (by rfl : functionLit.take 9 = functionLit)]
      rw [if_neg]
      intro hh
      exact hh.1 (by rfl : functionLit.drop 9 = [])

theorem colonSegs_arnPre (X : List Char) :
    colonSegs (arnPre ++ X) =
      ['a', 'r', 'n'] :: (['a', 'w', 's'] :: (['l', 'a', 'm', 'b', 'd', 'a'] :: colonSegs X)) := by
  have e : arnPre ++ X =
      ['a', 'r', 'n'] ++
        (':' :: (['a', 'w', 's'] ++ (':' :: (['l', 'a', 'm', 'b', 'd', 'a'] ++ (':' :: X))))) := rfl
  rw [e, colonSegs_append (by decide), colonSegs_append (by decide), colonSegs_append (by decide)]

theorem extract_decomp {s : String} (h : extractRegionFromLambdaArn s ≠ "") :
    (extractRegionFromLambdaArn s).data ≠ [] ∧
    (extractRegionFromLambdaArn s).data.all isRegionChar = true ∧
    (colonSegs s.data)[3]? = some (extractRegionFromLambdaArn s).data ∧
    ∃ d, (colonSegs s.data)[4]? = some d ∧ d.all Char.isDigit = true := by
  have hdata : (extractRegionFromLambdaArn s).data = extractRegionCore s.data := rfl
  have hne : extractRegionCore s.data ≠ [] := by
    intro h0
    apply h
    show (⟨extractRegionCore s.data⟩ : String) = ""
    rw [h0]
  obtain ⟨d, n, hcs, hrall, hrcol, _, hdall, hdcol, _, _⟩ := extractRegionCore_spec rfl hne
  have hsegs : colonSegs s.data =
      ['a', 'r', 'n'] :: (['a', 'w', 's'] :: (['l', 'a', 'm', 'b', 'd', 'a'] ::
        (extractRegionCore s.data :: (d :: colonSegs (functionLit ++ n))))) := by
    conv_lhs => rw [hcs]
    rw [colonSegs_arnPre, colonSegs_append hrcol, colonSegs_append hdcol]
  refine ⟨by rw [hdata]; exact hne, by rw [hdata]; exact hrall, ?_, d, ?_, hdall⟩
  · rw [hsegs, hdata]
    rfl
  · rw [hsegs]
    rfl

/-- Claim C10: the region-extraction function is total; a non-empty result
consists only of lowercase ASCII letters, digits and hyphens and is
exactly the colon-separated segment at index 3 of the input; the result
is empty whenever the input does not start with the 15-character anchor
`arn:aws:lambda:`, whenever the colon-separated account segment (index 4)
contains a non-digit character, or whenever nothing follows the literal
`function:` in an otherwise well-formed ARN. -/
theorem extractRegion_spec (s : String) :
    (extractRegionFromLambdaArn s = "" ∨
      ((extractRegionFromLambdaArn s).data ≠ [] ∧
       (extractRegionFromLambdaArn s).data.all isRegionChar = true ∧
       (colonSegs s.data)[3]? = some (extractRegionFromLambdaArn s).data)) ∧
    (s.data.take 15 ≠ arnPre → extractRegionFromLambdaArn s = "") ∧
    (∀ a, (colonSegs s.data)[4]? = some a → (∃ c ∈ a, c.isDigit = false) →
      extractRegionFromLambdaArn s = "") ∧
    (∀ r d : String, r.data.all isRegionChar = true → d.data.all Char.isDigit = true →
      extractRegionFromLambdaArn
        ⟨arnPre ++ (r.data ++ (':' :: (d.data ++ (':' :: functionLit))))⟩ = "") := by
  refine ⟨?_, ?_, ?_, ?_⟩
  · by_cases h : extractRegionFromLambdaArn s = ""
    · exact Or.inl h
    · obtain ⟨h1, h2, h3, _⟩ := extract_decomp h
      exact Or.inr ⟨h1, h2, h3⟩
  · intro h15
    show (⟨extractRegionCore s.data⟩ : String) = ""
    unfold extractRegionCore
    rw [if_neg h15]
  · intro a ha hnd
    by_cases h : extractRegionFromLambdaArn s = ""
    · exact h
    · exfalso
      obtain ⟨_, _, _, d, hd4, hdall⟩ := extract_decomp h
      rw [ha] at hd4
      injection hd4 with had
      obtain ⟨c, hc, hcd⟩ := hnd
      have := List.all_eq_true.mp hdall c (had ▸ hc)
      rw [hcd] at this
      exact Bool.false_ne_true this
  · intro r d hr hd
    have he := extractRegionCore_fnEmpty hr hd
    show (⟨extractRegionCore
      (arnPre ++ (r.data ++ (':' :: (d.data ++ (':' :: functionLit)))))⟩ : String) = ""
    rw [he]

/-- Concrete witness for C10: a string without the anchor yields the
empty region. -/
theorem extractRegion_spec_witness :
    "not-an-arn".data.take 15 ≠ arnPre ∧ extractRegionFromLambdaArn "not-an-arn" = "" :=
  ⟨by decide, (extractRegion_spec "not-an-arn").2.1 (by decide)⟩

/-- Claim C4: with the Strands agent enabled, when the Lambda ARN matches
the regex the derived-region effect overwrites `strands.region` with the
extracted token and the manual region input is disabled; when it does not
match, the configuration is left unchanged and the input stays editable. -/
theorem strandsRegion_derivation (c : Config) (hEn : c.strands.enabled = true) :
    (extractRegionFromLambdaArn c.strands.lambdaArn ≠ "" →
      updateStrandsRegionEffect c =
        { c with strands := { c.strands with
            region := extractRegionFromLambdaArn c.strands.lambdaArn } } ∧
      strandsRegionDisabled (updateStrandsRegionEffect c) = true) ∧
    (extractRegionFromLambdaArn c.strands.lambdaArn = "" →
      updateStrandsRegionEffect c = c ∧ strandsRegionDisabled c = false) := by
  constructor
  · intro hx
    have harn : c.strands.lambdaArn ≠ "" := by
      intro h0
      rw [h0] at hx
      exact hx (by decide)
    have heff : updateStrandsRegionEffect c =
        { c with strands := { c.strands with
            region := extractRegionFromLambdaArn c.strands.lambdaArn } } := by
      unfold updateStrandsRegionEffect
      rw [if_pos ⟨hEn, harn⟩, if_pos hx]
      rfl
    refine ⟨heff, ?_⟩
    have hpres : (updateStrandsRegionEffect c).strands.lambdaArn = c.strands.lambdaArn := by
      rw [heff]
    unfold strandsRegionDisabled
    rw [hpres]
    exact decide_eq_true hx
  · intro hx
    constructor
    · unfold updateStrandsRegionEffect
      by_cases harn : c.strands.lambdaArn ≠ ""
      · rw [if_pos ⟨hEn, harn⟩, if_neg (fun hh => hh hx)]
      · rw [if_neg (fun hh => harn hh.2)]
    · unfold strandsRegionDisabled
      exact decide_eq_false (fun hh => hh hx)

/-- Witness for C4 on the documented example ARN
`arn:aws:lambda:us-west-2:123456789012:function:foo`: the derived region
is `us-west-2` and the manual input becomes disabled. -/
theorem strandsRegion_derivation_witness :
    extractRegionFromLambdaArn sampleArnConfig.strands.lambdaArn = "us-west-2" ∧
    (updateStrandsRegionEffect sampleArnConfig =
      { sampleArnConfig with strands := { sampleArnConfig.strands with
          region := extractRegionFromLambdaArn sampleArnConfig.strands.lambdaArn } } ∧
     strandsRegionDisabled (updateStrandsRegionEffect sampleArnConfig) = true) :=
  ⟨by decide, (strandsRegion_derivation sampleArnConfig rfl).1 (by decide)⟩

/-! Lemmas about the association-list error object. -/

theorem findMsg_append (k : ErrorKey) (l1 l2 : List (ErrorKey × String)) :
    findMsg k (l1 ++ l2) = optOr (findMsg k l1) (findMsg k l2) := by
  induction l1 with
  | nil => simp [findMsg, optOr]
  | cons p t ih =>
    obtain ⟨k2, m⟩ := p
    by_cases hk : k2 = k
    · simp [findMsg, hk, optOr]
    · simp [findMsg, hk, ih]

theorem findMsg_condEntry {b : Prop} [Decidable b] (k k2 : ErrorKey) (m : String) :
    findMsg k (condEntry b k2 m) =
      (if k2 = k then (if b then some m else none) else none) := by
  unfold condEntry
  by_cases hb : b
  · rw [if_pos hb, if_pos hb]
    by_cases hk : k2 = k
    · simp [findMsg, hk]
    · simp [findMsg, hk]
  · rw [if_neg hb, if_neg hb]
    by_cases hk : k2 = k
    · simp [findMsg, hk]
    · simp [findMsg, hk]

theorem findMsg_ite (k : ErrorKey) (b : Prop) [Decidable b]
    (l1 l2 : List (ErrorKey × String)) :
    findMsg k (if b then l1 else l2) = (if b then findMsg k l1 else findMsg k l2) :=
  apply_ite (findMsg k) b l1 l2

theorem optOr_none_right (a : Option String) : optOr a none = a := by
  cases a <;> rfl

theorem optOr_none_left (b : Option String) : optOr none b = b := rfl

theorem validateForm_iff_nil (c : Config) :
    validateForm c = true ↔ newErrorsList c = [] := by
  unfold validateForm
  exact List.isEmpty_iff

theorem exists_error_of_not_valid {c : Config} (h : validateForm c = false) :
    ∃ k m, validationErrors c k = some m := by
  cases hl : newErrorsList c with
  | nil =>
    exfalso
    have : validateForm c = true := (validateForm_iff_nil c).mpr hl
    rw [h] at this
    exact Bool.false_ne_true this
  | cons p t =>
    obtain ⟨k0, m0⟩ := p
    refine ⟨k0, m0, ?_⟩
    unfold validationErrors
    rw [hl]
    simp [findMsg]

/-- Claim C1: `validateForm` recomputes the error mapping from scratch as
a pure function of the configuration and returns true iff the mapping is
empty; each of the four Cognito identity fields yields its entry exactly
when blank; with Strands disabled the Bedrock agentId, agentAliasId and
region yield their entries exactly when blank (and never with Strands
enabled); with Strands enabled the Lambda ARN and Strands region yield
their entries exactly when blank (and never with Strands disabled); the
two agent-name keys are never produced. -/
theorem validateForm_spec (c : Config) :
    (validateForm c = true ↔ ∀ k, validationErrors c k = none) ∧
    (validationErrors c ErrorKey.userPoolId =
      (if isBlank c.cognito.userPoolId = true then some "ユーザープールIDは必須です" else none) ∧
     validationErrors c ErrorKey.userPoolClientId =
      (if isBlank c.cognito.userPoolClientId = true then some "ユーザープールクライアントIDは必須です" else none) ∧
     validationErrors c ErrorKey.identityPoolId =
      (if isBlank c.cognito.identityPoolId = true then some "アイデンティティプールIDは必須です" else none) ∧
     validationErrors c ErrorKey.cognitoRegion =
      (if isBlank c.cognito.region = true then some "Cognitoリージョンは必須です" else none) ∧
     validationErrors c ErrorKey.agentId =
      (if c.strands.enabled = false then
        (if isBlank c.bedrock.agentId = true then some "エージェントIDは必須です" else none)
       else none) ∧
     validationErrors c ErrorKey.agentAliasId =
      (if c.strands.enabled = false then
        (if isBlank c.bedrock.agentAliasId = true then some "エージェントエイリアスIDは必須です" else none)
       else none) ∧
     validationErrors c ErrorKey.bedrockRegion =
      (if c.strands.enabled = false then
        (if isBlank c.bedrock.region = true then some "Bedrockリージョンは必須です" else none)
       else none) ∧
     validationErrors c ErrorKey.lambdaArn =
      (if c.strands.enabled = true then
        (if isBlank c.strands.lambdaArn = true then some "Lambda ARNは必須です" else none)
       else none) ∧
     validationErrors c ErrorKey.strandsRegion =
      (if c.strands.enabled = true then
        (if isBlank c.strands.region = true then some "リージョンは必須です" else none)
       else none) ∧
     validationErrors c ErrorKey.agentName = none ∧
     validationErrors c ErrorKey.strandsAgentName = none) := by
  constructor
  · constructor
    · intro h k
      unfold validationErrors
      rw [(validateForm_iff_nil c).mp h]
      rfl
    · intro h
      by_contra hf
      have hf2 : validateForm c = false := by
        cases hv : validateForm c
        · rfl
        · exact absurd hv hf
      obtain ⟨k, m, hk⟩ := exists_error_of_not_valid hf2
      rw [h k] at hk
      exact Option.noConfusion hk
  · refine ⟨?_, ?_, ?_, ?_, ?_, ?_, ?_, ?_, ?_, ?_, ?_⟩ <;>
      simp [validationErrors, newErrorsList, findMsg_append, findMsg_condEntry, findMsg_ite,
        optOr_none_right, optOr_none_left, findMsg]

/-- Witness for C1 at the empty initial configuration: the form is invalid
and the userPoolId entry is present. -/
theorem validateForm_spec_witness :
    (validateForm initialConfig = true ↔ ∀ k, validationErrors initialConfig k = none) ∧
    validationErrors initialConfig ErrorKey.userPoolId =
      (if isBlank initialConfig.cognito.userPoolId = true then some "ユーザープールIDは必須です" else none) :=
  ⟨(validateForm_spec initialConfig).1, (validateForm_spec initialConfig).2.1⟩

/-- Claim C2: on a valid configuration, `handleSubmit` stores the full
record (overwriting any prior value), applies it to Amplify, exits edit
mode, invokes `onConfigSet` exactly once, stores the recomputed (empty)
error mapping, and the persisted value round-trips: parsing it back with
the load-path back-fill yields the submitted record. -/
theorem handleSubmit_valid (w : World) (s : ComponentState)
    (h : validateForm s.config = true) :
    handleSubmit w s =
      ({ storage := some (storedOf s.config)
         amplify := some (configureAmplify s.config)
         editing := false
         savedCount := w.savedCount + 1 },
       { s with errors := validationErrors s.config }) ∧
    backfill (storedOf s.config) = s.config := by
  constructor
  · unfold handleSubmit
    rw [if_pos h]
  · rfl

/-- Witness for C2 at a concrete valid configuration. -/
theorem handleSubmit_valid_witness :
    validateForm sampleValidState.config = true ∧
    (handleSubmit sampleWorld sampleValidState =
      ({ storage := some (storedOf sampleValidState.config)
         amplify := some (configureAmplify sampleValidState.config)
         editing := false
         savedCount := sampleWorld.savedCount + 1 },
       { sampleValidState with errors := validationErrors sampleValidState.config }) ∧
     backfill (storedOf sampleValidState.config) = sampleValidState.config) :=
  ⟨by decide, handleSubmit_valid sampleWorld sampleValidState (by decide)⟩

/-- Claim C3: on an invalid configuration, `handleSubmit` leaves the world
unchanged (no persistence, no Amplify call, edit mode kept, callback not
invoked) and only stores the recomputed error mapping, which is left
populated. -/
theorem handleSubmit_invalid (w : World) (s : ComponentState)
    (h : validateForm s.config = false) :
    handleSubmit w s = (w, { s with errors := validationErrors s.config }) ∧
    ∃ k m, validationErrors s.config k = some m := by
  constructor
  · unfold handleSubmit
    rw [if_neg (by rw [h]; exact Bool.false_ne_true)]
  · exact exists_error_of_not_valid h

/-- Witness for C3 at the empty initial configuration. -/
theorem handleSubmit_invalid_witness :
    validateForm sampleState.config = false ∧
    (handleSubmit sampleWorld sampleState =
      (sampleWorld, { sampleState with errors := validationErrors sampleState.config }) ∧
     ∃ k m, validationErrors sampleState.config k = some m) :=
  ⟨by decide, handleSubmit_invalid sampleWorld sampleState (by decide)⟩

/-- Claim C5 as stated is false at this input: with a stored configuration
and edit mode off, the mount effect applies the configuration to Amplify
but does not invoke the parent-supplied completion callback
(`onConfigSet` is never called on the load path). -/
theorem loadOnMount_no_callback :
    (loadOnMount sampleWorld sampleState).1.amplify =
      some (configureAmplify (backfill sampleStored)) ∧
    ¬ (loadOnMount sampleWorld sampleState).1.savedCount = sampleWorld.savedCount + 1 :=
  ⟨rfl, by decide⟩

/-- Claim C5 (amended): on mount with a stored configuration and edit mode
off, the effect applies the back-filled configuration to Amplify
immediately and changes nothing else; in particular the parent completion
callback is not invoked and edit mode is untouched. -/
theorem loadOnMount_applies_config (w : World) (s : ComponentState) (sc : StoredConfig)
    (h1 : w.storage = some sc) (h2 : w.editing = false) :
    loadOnMount w s = ({ w with amplify := some (configureAmplify (backfill sc)) }, s) := by
  unfold loadOnMount
  simp only [h1]
  rw [if_pos h2]

/-- Witness for the amended C5 at a concrete world. -/
theorem loadOnMount_applies_config_witness :
    sampleWorld.storage = some sampleStored ∧ sampleWorld.editing = false ∧
    loadOnMount sampleWorld sampleState =
      ({ sampleWorld with amplify := some (configureAmplify (backfill sampleStored)) },
       sampleState) :=
  ⟨rfl, rfl, loadOnMount_applies_config sampleWorld sampleState sampleStored rfl rfl⟩

/-- Claim C6: after any sequence of in-memory edits, Cancel only clears
the edit flag: localStorage, the Amplify configuration, the callback
count, and the whole component state (no validation run) are exactly what
they were before the click. -/
theorem cancel_frame (w : World) (s : ComponentState) (edits : List EditAction) :
    (handleCancel w (edits.foldl applyEdit s)).1.storage = w.storage ∧
    handleCancel w (edits.foldl applyEdit s) =
      ({ w with editing := false }, edits.foldl applyEdit s) :=
  ⟨rfl, rfl⟩

/-- Claim C7: loading a stored record with no `strands` sub-record
back-fills it with `enabled: false`, empty ARN and region, and the
default display name, leaving the other two sections unchanged. -/
theorem backfill_missing_strands (cog : CognitoConfig) (bed : BedrockConfig) :
    backfill { cognito := cog, bedrock := bed, strands := none } =
      { cognito := cog
        bedrock := bed
        strands := { enabled := false, lambdaArn := ""
                     agentName := "Strandsエージェント", region := "" } } := rfl

/-- Claim C8: a field edit replaces only that field's error entry with the
empty message and leaves every other entry untouched; the full mapping is
recomputed only by a save attempt (`handleSubmit` stores
`validationErrors` of the submitted configuration, in both outcomes). -/
theorem editField_frame (f : EditableField) (v : String) (s : ComponentState) :
    (editField f v s).errors (errorKeyOf f) = some "" ∧
    (∀ k, k ≠ errorKeyOf f → (editField f v s).errors k = s.errors k) ∧
    (∀ w, (handleSubmit w s).2.errors = validationErrors s.config) := by
  refine ⟨by simp [editField], fun k hk => by simp [editField, hk], fun w => ?_⟩
  unfold handleSubmit
  split <;> rfl

/-- Witness for C8: editing the user-pool field clears only its own
entry and leaves the agentId entry unchanged. -/
theorem editField_frame_witness :
    (editField EditableField.cognitoUserPoolId "x" sampleState).errors ErrorKey.userPoolId =
      some "" ∧
    (editField EditableField.cognitoUserPoolId "x" sampleState).errors ErrorKey.agentId =
      sampleState.errors ErrorKey.agentId :=
  ⟨(editField_frame EditableField.cognitoUserPoolId "x" sampleState).1,
   (editField_frame EditableField.cognitoUserPoolId "x" sampleState).2.1
     ErrorKey.agentId (by decide)⟩

/-- Claim C9: re-rendering the preview with a new html string replaces the
whole srcdoc document; the resulting surface content is a function of the
new string alone, so nothing of the previous document remains. -/
theorem previewEffect_replaces (a b : String) (node : IframeNode) :
    (previewEffect b (previewEffect a node)).srcdoc = some b ∧
    (∀ n1 n2 : IframeNode, (previewEffect b n1).srcdoc = (previewEffect b n2).srcdoc) :=
  ⟨rfl, fun _ _ => rfl⟩

end ChatUi
